import Mathlib

/- Verification of the frame-combination engine of PyReduce
   (pyreduce/combine_frames.py), shallowly embedded in Lean.

   Modelling conventions:
   * numpy float arrays are modelled as lists over a linear ordered field
     `K`; definitions are stated generically and instantiated at `ℚ`
     (for executable counterexamples) and at `ℝ` (where the code takes a
     square root, modelled by `Real.sqrt`);
   * 2D arrays are lists of rows (`List (List K)`), row-major as in numpy;
   * out-of-range reads use `List.getD` with default 0; all theorems carry
     the rectangularity and range hypotheses under which the numpy code
     runs without error, so the defaults are never observable. -/

set_option maxHeartbeats 1000000

variable {K : Type} [LinearOrderedField K]

/-- Minimum of a list, numpy-style (`np.min` along an axis); the default 0
is only produced on the empty list, where numpy errors out. -/
def listMin : List K → K
  | [] => 0
  | x :: xs => xs.foldl min x

/-- Maximum of a list, numpy-style (`np.max` along an axis). -/
def listMax : List K → K
  | [] => 0
  | x :: xs => xs.foldl max x

/-- Column `c` of a 2D array: the values `m[f][c]` for each row `f`. -/
def column (c : ℕ) (m : List (List K)) : List K :=
  m.map (fun row => row.getD c 0)

/-- `np.sum(m, axis=0)`: per-column sum across rows; the width is taken
from the first row, as numpy does for a rectangular array. -/
def sumColumns (m : List (List K)) : List K :=
  (List.range (m.headD []).length).map (fun c => (column c m).sum)

/-- `np.mean(m, axis=0)`: per-column mean across rows. -/
def meanColumns (m : List (List K)) : List K :=
  (List.range (m.headD []).length).map (fun c => (column c m).sum / (m.length : K))

/-- Entry `m[f][c]` of a 2D array, with default 0. -/
def colGet (m : List (List K)) (f c : ℕ) : K := (m.getD f []).getD c 0

/-- `np.cumsum(row)`: entry `i` is the sum of the first `i + 1` elements. -/
def cumsum (xs : List K) : List K :=
  (List.range xs.length).map (fun i => (xs.take (i + 1)).sum)

/-- One row of `running_sum` (combine_frames.py lines 63-65):
`ret = np.cumsum(row)`, `ret[size:] -= ret[:-size]`, return `ret[size-1:]`. -/
def running_sum_row (xs : List K) (size : ℕ) : List K :=
  ((List.range xs.length).map (fun i =>
    if size ≤ i then (cumsum xs).getD i 0 - (cumsum xs).getD (i - size) 0
    else (cumsum xs).getD i 0)).drop (size - 1)

/-- `running_sum(arr, size)` (combine_frames.py lines 48-65): the
cumulative-sum-difference running sum, applied to each row of a 2D array. -/
def running_sum (arr : List (List K)) (size : ℕ) : List (List K) :=
  arr.map (fun row => running_sum_row row size)

/-- Median of a list: middle element of the sorted list.  All call sites
pass windows of odd length, where this is the exact median; the scipy
convention for even lengths is never exercised. -/
def medianList (xs : List K) : K :=
  (List.insertionSort (· ≤ ·) xs).getD (xs.length / 2) 0

/-- `running_median(arr, size)` (combine_frames.py lines 28-45):
`median_filter(row, size=size, mode="constant")` trimmed by `size // 2` on
each side.  For the odd sizes used by `calculate_probability` the trimming
removes exactly the positions whose filter window overlaps the zero
padding, so the result is the exact sliding median over full windows. -/
def running_median (arr : List (List K)) (size : ℕ) : List (List K) :=
  arr.map (fun row => (List.range (row.length + 1 - size)).map
    (fun i => medianList ((row.drop i).take size)))

/-- `np.divide(weights, sum_of_weights, where=sum_of_weights > 0,
out=weights)` (combine_frames.py line 104): divide each row elementwise by
the per-column norm where that norm is positive, keeping the raw entry
elsewhere (`out` starts as `weights` itself). -/
def normalizeWeights (weights : List (List K)) (sow : List K) : List (List K) :=
  weights.map (fun row => List.zipWith (fun x s => if 0 < s then x / s else x) row sow)

/-- The "sum" method string accepted by `calculate_probability`. -/
def methodSum : String := "sum"

/-- The "median" method string accepted by `calculate_probability`. -/
def methodMedian : String := "median"

/-- `calculate_probability(buffer, window, method)` (combine_frames.py
lines 68-105).  The "median" branch norms the running medians by their
across-frame mean, the "sum" branch norms the running sums by their
across-frame sum; an unknown method raises (`none`). -/
def calculate_probability (buffer : List (List K)) (window : ℕ) (method : String) :
    Option (List (List K)) :=
  if method = "median" then
    some (normalizeWeights (running_median buffer (2 * window + 1))
      (meanColumns (running_median buffer (2 * window + 1))))
  else if method = "sum" then
    some (normalizeWeights (running_sum buffer (2 * window + 1))
      (sumColumns (running_sum buffer (2 * window + 1))))
  else none


/-- Elementwise combination of three equal-shape arrays (`np.where` over a
boolean mask, or a pointwise ternary operation). -/
def zip3With {A B C D : Type} (f : A → B → C → D) : List A → List B → List C → List D
  | a :: as, b :: bs, c :: cs => f a b c :: zip3With f as bs cs
  | _, _, _ => []

/-- The `ratio` array of `fix_bad_pixels` (combine_frames.py lines 135-137):
`np.divide(buffer, probability, where=probability > 0, out=zeros)`. -/
def ratioOf (probability buffer : List (List K)) : List (List K) :=
  List.zipWith (List.zipWith (fun b p => if 0 < p then b / p else 0)) buffer probability

/-- The `amplitude` vector of `fix_bad_pixels` (combine_frames.py line 138):
`(np.sum(ratio, 0) - np.min(ratio, 0) - np.max(ratio, 0)) / (nfiles - 2)`. -/
def amplitudeOf (probability buffer : List (List K)) : List K :=
  (List.range ((ratioOf probability buffer).headD []).length).map (fun c =>
    ((column c (ratioOf probability buffer)).sum
      - listMin (column c (ratioOf probability buffer))
      - listMax (column c (ratioOf probability buffer)))
      / ((buffer.length : K) - 2))

/-- The `fitted_signal` array of `fix_bad_pixels` (combine_frames.py line
140): `np.where(probability > 0, amplitude[None, :] * probability, 0)`. -/
def fittedOf (probability buffer : List (List K)) : List (List K) :=
  probability.map (fun prow =>
    List.zipWith (fun p a => if 0 < p then a * p else 0) prow (amplitudeOf probability buffer))

/-- The `predicted_noise` array of `fix_bad_pixels` (combine_frames.py
lines 141-143): `tmp = readnoise**2 + fitted_signal/gain` followed by
`np.sqrt(tmp, where=tmp >= 0, out=zeros)` — the guard is on the whole
argument of the square root, and entries with a negative argument keep the
initial 0. -/
noncomputable def predictedOf (probability buffer : List (List ℝ)) (readnoise gain : ℝ) :
    List (List ℝ) :=
  (fittedOf probability buffer).map (fun frow => frow.map (fun fs =>
    if 0 ≤ readnoise ^ 2 + fs / gain then Real.sqrt (readnoise ^ 2 + fs / gain) else 0))

/-- The `badpixels` mask of `fix_bad_pixels` (combine_frames.py line 146):
`buffer - fitted_signal > threshold * predicted_noise`. -/
noncomputable def badOf (probability buffer : List (List ℝ)) (readnoise gain threshold : ℝ) :
    List (List Bool) :=
  zip3With (fun brow frow srow =>
      zip3With (fun b f s => decide (threshold * s < b - f)) brow frow srow)
    buffer (fittedOf probability buffer) (predictedOf probability buffer readnoise gain)

/-- The `corrected_signal` array before summing (combine_frames.py line
150): `np.where(badpixels, fitted_signal, buffer)`. -/
noncomputable def correctedOf (probability buffer : List (List ℝ))
    (readnoise gain threshold : ℝ) : List (List ℝ) :=
  zip3With (fun badrow frow brow =>
      zip3With (fun (bad : Bool) f b => if bad then f else b) badrow frow brow)
    (badOf probability buffer readnoise gain threshold) (fittedOf probability buffer) buffer

/-- `fix_bad_pixels(probability, buffer, readnoise, gain, threshold)`
(combine_frames.py lines 108-152): replace flagged outliers by the fitted
signal, sum across the frames, and return the co-added row together with
the number of flagged pixels. -/
noncomputable def fix_bad_pixels (probability buffer : List (List ℝ))
    (readnoise gain threshold : ℝ) : List ℝ × ℕ :=
  (sumColumns (correctedOf probability buffer readnoise gain threshold),
   ((badOf probability buffer readnoise gain threshold).map (fun row => row.countP id)).sum)

/-- Spec-side formula (spec section 4.3 step 1): `ratio[f] =
buffer[f,c]/probability[f,c]` where `probability[f,c] > 0`, else 0. -/
def specRatio (probability buffer : List (List K)) (f c : ℕ) : K :=
  if 0 < colGet probability f c then colGet buffer f c / colGet probability f c else 0

/-- Spec-side formula (spec section 4.3 step 2): the trimmed mean
`(sum(ratio) − min(ratio) − max(ratio)) / (N − 2)` over the `N` frames. -/
def specAmplitude (probability buffer : List (List K)) (n c : ℕ) : K :=
  (((List.range n).map (fun f => specRatio probability buffer f c)).sum
    - listMin ((List.range n).map (fun f => specRatio probability buffer f c))
    - listMax ((List.range n).map (fun f => specRatio probability buffer f c)))
    / ((n : K) - 2)

/-- Spec-side formula (spec section 4.3 step 3): `fitted_signal[f,c] =
amplitude[c] * probability[f,c]` where the probability is positive, else 0. -/
def specFitted (probability buffer : List (List K)) (n f c : ℕ) : K :=
  if 0 < colGet probability f c
  then specAmplitude probability buffer n c * colGet probability f c else 0

/-- The predicted noise of frame `f` at column `c` as the code computes it
(guard on the whole square-root argument). -/
noncomputable def specNoise (probability buffer : List (List ℝ)) (readnoise gain : ℝ)
    (n f c : ℕ) : ℝ :=
  if 0 ≤ readnoise ^ 2 + specFitted probability buffer n f c / gain
  then Real.sqrt (readnoise ^ 2 + specFitted probability buffer n f c / gain) else 0

/-- The outlier flag of frame `f` at column `c` (spec section 4.3 step 5):
`buffer − fitted_signal > threshold * predicted_noise`. -/
noncomputable def specBad (probability buffer : List (List ℝ)) (readnoise gain threshold : ℝ)
    (n f c : ℕ) : Bool :=
  decide (threshold * specNoise probability buffer readnoise gain n f c
    < colGet buffer f c - specFitted probability buffer n f c)

/-- The left-edge overwrite of the probability array for one frame row
(combine_frames.py lines 388-391): `probability[:, :window] =
2*probability[:, window][:, None] - probability[:, 2*window:window:-1]`,
reading the row as left by the central assignment. -/
def leftExtrapolate (p : List K) (w : ℕ) : List K :=
  (List.range p.length).map (fun c =>
    if c < w then 2 * p.getD w 0 - p.getD (2 * w - c) 0 else p.getD c 0)

/-- The edge extrapolation of one probability row (combine_frames.py lines
387-395): the left overwrite above followed by the right overwrite
`probability[:, -window:] = 2*probability[:, -window-1][:, None]
- probability[:, -window-1:-2*window-1:-1]`, which reads the row as left
by the left overwrite; for a row of length `L` the slice on the right-hand
side supplies column `2*(L-window-1)+1-c` to output column `c`. -/
def extrapolate_probability (p : List K) (w : ℕ) : List K :=
  (List.range p.length).map (fun c =>
    if p.length - w ≤ c
    then 2 * (leftExtrapolate p w).getD (p.length - w - 1) 0
      - (leftExtrapolate p w).getD (2 * (p.length - w - 1) + 1 - c) 0
    else (leftExtrapolate p w).getD c 0)

/-- One row-combination step of `combine_frames` on the `N ≥ 3` path
(combine_frames.py lines 384-401): write the central probabilities from
`calculate_probability` (default method "sum", which never fails) into the
reused probability array `probInit`, extrapolate both edges, then run
`fix_bad_pixels`. -/
noncomputable def combine_row (probInit buffer : List (List ℝ)) (window : ℕ)
    (readnoise gain threshold : ℝ) : List ℝ × ℕ :=
  fix_bad_pixels
    ((List.zipWith (fun initRow wRow =>
        initRow.take window ++ wRow ++ initRow.drop (window + wRow.length))
      probInit ((calculate_probability buffer window methodSum).getD [])).map
      (fun p => extrapolate_probability p window))
    buffer readnoise gain threshold

/-- Message of the ValueError raised by `combine_frames` on an empty file
list (combine_frames.py line 260). -/
def msgNoFiles : String := "No files given for combining frames"

/-- Message of the ConfigurationError raised by `combine_bias` on an empty
file list (combine_frames.py line 685). -/
def msgNoBias : String := "Cannot combine bias: no bias file(s) given"

/-- Modelled Python exceptions of the combine-frames module.
`valueErrorChoices` is a ValueError whose message names the allowed-value
set and the offending value; `configurationError` is the
ConfigurationError class imported from pyreduce/util.py. -/
inductive PyErr : Type where
  | valueError (msg : String)
  | valueErrorChoices (allowed : List String) (got : String)
  | configurationError (msg : String)

/-- The header fields of a loaded frame that `combine_frames` reads and
writes.  `e_readn` is the scalar `e_readn` card (two-file path),
`e_readn_all` the cards matching `e_readn*` (the `N ≥ 3` path), and
`e_gain_all` the cards matching `e_gain*`.  `darktime`, `rdnoise`,
`nimages` and `npixfix` are absent (`none`) in input headers and written
by the header post-processing. -/
structure FitsHeader where
  exptime : ℝ
  e_readn : ℝ
  e_readn_all : List ℝ
  e_gain_all : List ℝ
  darktime : Option ℝ := none
  rdnoise : Option (List ℝ) := none
  nimages : Option ℕ := none
  npixfix : Option ℕ := none

instance : Inhabited FitsHeader := ⟨⟨0, 0, [], [], none, none, none, none⟩⟩

/-- Header post-processing shared by the two-file and `N ≥ 3` paths of
`combine_frames` (combine_frames.py lines 408-426): set the exposure and
dark time to the summed exposure time, write each read-noise value scaled
by `sqrt(nimages)` into the `rdnoise*` cards, and record the image and
fixed-pixel counts. -/
noncomputable def finishHeader (head : FitsHeader) (total : ℝ) (readnoise : List ℝ)
    (nimages n_fixed : ℕ) : FitsHeader :=
  { head with
    exptime := total
    darktime := some total
    rdnoise := some (readnoise.map (fun rdn => rdn * Real.sqrt (nimages : ℝ)))
    nimages := some nimages
    npixfix := some n_fixed }

/-- The header behaviour of `combine_frames` (combine_frames.py lines
258-442): no files raises ValueError; one file returns the loaded header
unchanged (lines 261-263, before any post-processing); two files sum the
two exposure times and post-process the second header with its scalar
`e_readn`; three or more files sum all exposure times and post-process the
first header with its `e_readn*` cards.  The pixel loop's bad-pixel count
is passed in as `n_fixed`; the two-file path sets it to 0 itself. -/
noncomputable def combine_frames_header (headers : List FitsHeader) (n_fixed : ℕ) :
    Except PyErr FitsHeader :=
  match headers with
  | [] => .error (.valueError msgNoFiles)
  | [h] => .ok h
  | [h1, h2] => .ok (finishHeader h2 (h1.exptime + h2.exptime) [h2.e_readn] 2 0)
  | h0 :: rest => .ok (finishHeader h0 (((h0 :: rest).map (fun h => h.exptime)).sum)
      h0.e_readn_all (h0 :: rest).length n_fixed)

/-- The read-noise values the header post-processing scales: the second
header's scalar `e_readn` card on the two-file path, the first header's
`e_readn*` cards on the `N ≥ 3` path. -/
def refReadnoise (headers : List FitsHeader) : List ℝ :=
  if headers.length = 2 then [(headers.getD 1 default).e_readn]
  else (headers.headD default).e_readn_all

/-- A bias passed to `combine_calibrate`: a plain 2D image
(`bias.ndim == 2`) or a stack of polynomial coefficient images, highest
degree first as for `np.polyval`. -/
inductive BiasArg : Type where
  | dim2 (image : List (List ℝ))
  | dim3 (coeffs : List (List (List ℝ)))

/-- Elementwise difference of two 2D arrays. -/
def matSub (a b : List (List K)) : List (List K) :=
  List.zipWith (List.zipWith (fun x y => x - y)) a b

/-- Elementwise sum of two 2D arrays. -/
def matAdd (a b : List (List K)) : List (List K) :=
  List.zipWith (List.zipWith (fun x y => x + y)) a b

/-- Scalar multiple of a 2D array. -/
def matScale (s : K) (a : List (List K)) : List (List K) :=
  a.map (List.map (fun x => s * x))

/-- Elementwise division of a 2D array by a scalar (`arr /= s`). -/
def matDivScalar (a : List (List K)) (s : K) : List (List K) :=
  a.map (List.map (fun x => x / s))

/-- Elementwise quotient of two 2D arrays (`orig /= norm`). -/
def matDiv (a b : List (List K)) : List (List K) :=
  List.zipWith (List.zipWith (fun x y => x / y)) a b

/-- `np.min` of a 2D array. -/
def matMin (a : List (List K)) : K := listMin a.join

/-- `np.max` of a 2D array. -/
def matMax (a : List (List K)) : K := listMax a.join

/-- `np.ma.mean` of a 2D array (no masked entries in the model). -/
def matMean (a : List (List K)) : K := a.join.sum / (a.join.length : K)

/-- `np.ma.median` of a 2D array: middle of the sorted values, averaging
the two middle values for an even count. -/
def matMedian (a : List (List K)) : K :=
  if (List.insertionSort (fun x y => x ≤ y) a.join).length % 2 = 1 then
    (List.insertionSort (fun x y => x ≤ y) a.join).getD (a.join.length / 2) 0
  else
    ((List.insertionSort (fun x y => x ≤ y) a.join).getD (a.join.length / 2 - 1) 0
      + (List.insertionSort (fun x y => x ≤ y) a.join).getD (a.join.length / 2) 0) / 2

/-- `np.polyval(coeffs, x)` on a stack of coefficient images: Horner
evaluation, highest-degree image first. -/
noncomputable def matHorner (coeffs : List (List (List ℝ))) (x : ℝ) : List (List ℝ) :=
  match coeffs with
  | [] => []
  | c :: cs => cs.foldl (fun acc ci => matAdd (matScale x acc) ci) c

/-- The "exposure_time" bias scaling. -/
def scalingExpTime : String := "exposure_time"

/-- The "number_of_files" bias scaling. -/
def scalingNumFiles : String := "number_of_files"

/-- The "mean" bias scaling. -/
def scalingMean : String := "mean"

/-- The "median" bias scaling. -/
def scalingMedian : String := "median"

/-- The "none" scaling (skip the step). -/
def scalingNone : String := "none"

/-- The "divide" norm scaling. -/
def scalingDivide : String := "divide"

/-- An unrecognized scaling value used as concrete test data. -/
def scalingBogus : String := "bogus"

/-- The allowed-value set named by the ValueError for a 2D bias
(combine_frames.py lines 523-525). -/
def allowedBias2 : List String :=
  [scalingExpTime, scalingNumFiles, scalingMean, scalingMedian, scalingNone]

/-- The allowed-value set named by the ValueError for a polynomial bias
(combine_frames.py lines 538-539). -/
def allowedBias3 : List String := [scalingExpTime]

/-- The allowed-value set named by the ValueError for the norm scaling
(combine_frames.py lines 546-547). -/
def allowedNorm : List String := [scalingDivide, scalingNone]

/-- The bias-scaling reassignment of `combine_calibrate` (combine_frames.py
lines 508-510): with a 2D bias whose header has zero exposure time,
"exposure_time" scaling falls back to "number_of_files" with a warning. -/
noncomputable def effective_scaling (bexp : ℝ) (bs : String) : String :=
  if bexp = 0 ∧ bs = "exposure_time" then "number_of_files" else bs

/-- The bias-subtraction step of `combine_calibrate` (combine_frames.py
lines 504-539).  The step is skipped when no bias is given, when
`bias_scaling` is Python `None` (modelled as `none`), or when it is the
string "none"; a 2D bias dispatches on the five scalings and raises a
ValueError naming the allowed set otherwise; a polynomial bias supports
only "exposure_time" and raises a ValueError naming `["exposure_time"]`
otherwise. -/
noncomputable def bias_step (orig : List (List ℝ)) (texp : ℝ) (bias : Option BiasArg)
    (bexp : ℝ) (bias_scaling : Option String) (nfiles : ℕ) :
    Except PyErr (List (List ℝ)) :=
  match bias, bias_scaling with
  | some (.dim2 image), some bs =>
    if bs = "none" then .ok orig
    else if effective_scaling bexp bs = "exposure_time" then
      .ok (matSub orig (matScale (texp / bexp) image))
    else if effective_scaling bexp bs = "number_of_files" then
      .ok (matSub orig (matScale (nfiles : ℝ) image))
    else if effective_scaling bexp bs = "mean" then
      .ok (matSub orig (matScale (matMean orig / matMean image) image))
    else if effective_scaling bexp bs = "median" then
      .ok (matSub orig (matScale (matMedian orig / matMedian image) image))
    else if effective_scaling bexp bs = "none" then .ok orig
    else .error (.valueErrorChoices allowedBias2 (effective_scaling bexp bs))
  | some (.dim3 coeffs), some bs =>
    if bs = "none" then .ok orig
    else if bs = "exposure_time" then .ok (matSub orig (matHorner coeffs texp))
    else .error (.valueErrorChoices allowedBias3 bs)
  | _, _ => .ok orig

/-- The flat-normalization step of `combine_calibrate` (combine_frames.py
lines 541-547): skipped when no norm is given or `norm_scaling` is
"none"; "divide" divides elementwise; anything else raises a ValueError
naming the allowed set. -/
noncomputable def norm_step (orig2 : List (List ℝ)) (norm : Option (List (List ℝ)))
    (norm_scaling : String) : Except PyErr (List (List ℝ)) :=
  match norm with
  | some nrm =>
    if norm_scaling = "none" then .ok orig2
    else if norm_scaling = "divide" then .ok (matDiv orig2 nrm)
    else .error (.valueErrorChoices allowedNorm norm_scaling)
  | none => .ok orig2

/-- The calibration applied by `combine_calibrate` after the frames are
combined (combine_frames.py lines 504-547): the bias-subtraction step
followed, when it does not raise, by the flat-normalization step. -/
noncomputable def combine_calibrate_post (orig : List (List ℝ)) (texp : ℝ)
    (bias : Option BiasArg) (bexp : ℝ) (bias_scaling : Option String)
    (norm : Option (List (List ℝ))) (norm_scaling : String) (nfiles : ℕ) :
    Except PyErr (List (List ℝ)) :=
  match bias_step orig texp bias bexp bias_scaling nfiles with
  | .error e => .error e
  | .ok orig2 => norm_step orig2 norm norm_scaling

/-- The values `combine_bias` records in the returned header
(combine_frames.py lines 708-711 and 788-791). -/
structure BiasOut where
  exptime : ℝ
  nimages : ℕ
  npixfix : ℕ
  bgnoise : ℝ

/-- The file-list split of `combine_bias` (combine_frames.py lines
683-691): a single file is compared with itself and `n` is set to 2;
otherwise the list is halved. -/
def biasSplit {F : Type} (files : List F) : List F × List F × ℕ :=
  if files.length = 1 then (files, files, 2)
  else (files.take (files.length / 2), files.drop (files.length / 2), files.length)

/-- One normalized half of `combine_bias` (combine_frames.py lines
698-702): the half combined by `combine_frames` (abstracted as the
function `combineF`), divided by its own file count. -/
noncomputable def biasHalf {F : Type} (combineF : List F → List (List ℝ) × FitsHeader)
    (l : List F) : List (List ℝ) :=
  matDivScalar (combineF l).1 (l.length : ℝ)

/-- The difference image of `combine_bias` (combine_frames.py line 714):
`diff = 0.5 * (bias1 - bias2)` over the normalized halves. -/
noncomputable def biasDiff {F : Type} (combineF : List F → List (List ℝ) × FitsHeader)
    (files : List F) : List (List ℝ) :=
  matScale (1 / 2) (matSub (biasHalf combineF (biasSplit files).1)
    (biasHalf combineF (biasSplit files).2.1))

/-- The normalized sum of `combine_bias` (combine_frames.py line 708):
`bias = (bias1 * n1 + bias2 * n2) / n`. -/
noncomputable def biasSum {F : Type} (combineF : List F → List (List ℝ) × FitsHeader)
    (files : List F) : List (List ℝ) :=
  matDivScalar
    (matAdd (matScale (((biasSplit files).1.length : ℕ) : ℝ)
        (biasHalf combineF (biasSplit files).1))
      (matScale (((biasSplit files).2.1.length : ℕ) : ℝ)
        (biasHalf combineF (biasSplit files).2.1)))
    (((biasSplit files).2.2 : ℕ) : ℝ)

/-- The averaged exposure time of `combine_bias` (combine_frames.py lines
709-711): `(exptime1 + exptime2) / n`. -/
noncomputable def biasExptime {F : Type} (combineF : List F → List (List ℝ) × FitsHeader)
    (files : List F) : ℝ :=
  ((combineF (biasSplit files).1).2.exptime + (combineF (biasSplit files).2.1).2.exptime)
    / (((biasSplit files).2.2 : ℕ) : ℝ)

/-- The flagged-pixel count of the non-degenerate branch of `combine_bias`
(combine_frames.py lines 739-740): pixels whose difference value lies at
or outside the good range `(gmin, gmax)` found by the Gaussian
contamination analysis. -/
noncomputable def biasNbad {F : Type} (combineF : List F → List (List ℝ) × FitsHeader)
    (gaussEstimate : List (List ℝ) → ℕ → ℝ × ℝ × ℝ) (files : List F) : ℕ :=
  ((biasDiff combineF files).map (fun row => row.countP (fun x =>
    decide (x ≤ (gaussEstimate (biasDiff combineF files) (biasSplit files).2.2).2.1
      ∨ (gaussEstimate (biasDiff combineF files) (biasSplit files).2.2).2.2 ≤ x)))).sum

/-- The bias image of the non-degenerate branch of `combine_bias`
(combine_frames.py line 742): at flagged pixels the normalized sum is
replaced by `np.clip(bias1, None, bias2)`, the elementwise minimum of the
two halves. -/
noncomputable def biasFixed {F : Type} (combineF : List F → List (List ℝ) × FitsHeader)
    (gaussEstimate : List (List ℝ) → ℕ → ℝ × ℝ × ℝ) (files : List F) : List (List ℝ) :=
  zip3With (fun drow brow mrow =>
      zip3With (fun d bv mv =>
        if d ≤ (gaussEstimate (biasDiff combineF files) (biasSplit files).2.2).2.1
          ∨ (gaussEstimate (biasDiff combineF files) (biasSplit files).2.2).2.2 ≤ d
        then mv else bv) drow brow mrow)
    (biasDiff combineF files) (biasSum combineF files)
    (List.zipWith (List.zipWith (fun x y => min x y))
      (biasHalf combineF (biasSplit files).1) (biasHalf combineF (biasSplit files).2.1))

/-- `combine_bias(files, ...)` (combine_frames.py lines 647-792), modelled
over the abstract frame combination `combineF` (combine_frames, a
deterministic function) and an abstract estimator `gaussEstimate`
returning `(noise, gmin, gmax)` for the difference image — the
histogram/Gaussian-fit block of lines 716-736 calls `gaussfit` and
`gaussbroad` from pyreduce/util.py, which the sources only import.  The
file split, half normalization, difference test, degenerate defaults,
flagged-pixel replacement and returned header values are modelled
concretely. -/
noncomputable def combine_bias {F : Type} (combineF : List F → List (List ℝ) × FitsHeader)
    (gaussEstimate : List (List ℝ) → ℕ → ℝ × ℝ × ℝ) (files : List F) :
    Except PyErr (List (List ℝ) × BiasOut) :=
  if files.length = 0 then .error (.configurationError msgNoBias)
  else if matMin (biasDiff combineF files) ≠ matMax (biasDiff combineF files) then
    .ok (biasFixed combineF gaussEstimate files,
      ⟨biasExptime combineF files, (biasSplit files).2.2,
        biasNbad combineF gaussEstimate files,
        ((combineF (biasSplit files).2.1).2.e_gain_all.headD 1)
          * (gaussEstimate (biasDiff combineF files) (biasSplit files).2.2).1⟩)
  else
    .ok (biasSum combineF files,
      ⟨biasExptime combineF files, (biasSplit files).2.2, 0, 1⟩)

/-- Marker comment: definitions above, lemmas and theorems below. -/

lemma cumsum_getD (xs : List K) (i : ℕ) (h : i < xs.length) :
    (cumsum xs).getD i 0 = (xs.take (i + 1)).sum := by
  unfold cumsum
  rw [List.getD_eq_getElem _ _ (by simpa using h)]
  simp

lemma running_sum_row_length (xs : List K) (size : ℕ) :
    (running_sum_row xs size).length = xs.length - (size - 1) := by
  simp [running_sum_row]

lemma running_sum_row_getD (xs : List K) (size i : ℕ) (hs : 1 ≤ size)
    (hi : i < xs.length + 1 - size) :
    (running_sum_row xs size).getD i 0 = (((xs.drop i).take size)).sum := by
  have hlen : size - 1 + i < xs.length := by omega
  unfold running_sum_row
  rw [List.getD_eq_getElem _ _ (by simp; omega)]
  rw [List.getElem_drop]
  rw [List.getElem_map]
  rw [List.getElem_range]
  rcases Nat.eq_zero_or_pos i with hi0 | hip
  · subst hi0
    have hlt : ¬ size ≤ size - 1 + 0 := by omega
    rw [if_neg hlt, cumsum_getD _ _ (by omega)]
    have : size - 1 + 0 + 1 = size := by omega
    rw [this]
    simp
  · have hle : size ≤ size - 1 + i := by omega
    rw [if_pos hle, cumsum_getD _ _ (by omega), cumsum_getD _ _ (by omega)]
    have h1 : size - 1 + i + 1 = i + size := by omega
    have h2 : size - 1 + i - size = i - 1 := by omega
    have h3 : i - 1 + 1 = i := by omega
    rw [h1, h2, h3]
    rw [show i + size = i + size from rfl, List.take_add, List.sum_append]
    ring

/-- C6: for every 2D input and every window size `size ≥ 1`, `running_sum`
computed by the cumulative-sum-difference implementation equals the naive
windowed sum: each output row has length `L − size + 1` (for its own row
length `L`) and entry `i` is `sum(row[i : i+size])`. -/
theorem running_sum_eq_naive (arr : List (List K)) (size : ℕ) (hs : 1 ≤ size) :
    (running_sum arr size).length = arr.length ∧
    ∀ r, r < arr.length →
      ((running_sum arr size).getD r []).length = (arr.getD r []).length + 1 - size ∧
      ∀ i, i < (arr.getD r []).length + 1 - size →
        ((running_sum arr size).getD r []).getD i 0
          = (((arr.getD r []).drop i).take size).sum := by
  constructor
  · simp [running_sum]
  · intro r hr
    have hrow : (running_sum arr size).getD r [] = running_sum_row (arr.getD r []) size := by
      rw [List.getD_eq_getElem _ _ (by simpa [running_sum] using hr),
          List.getD_eq_getElem _ _ hr]
      simp [running_sum]
    rw [hrow]
    constructor
    · rw [running_sum_row_length]; omega
    · intro i hi
      exact running_sum_row_getD _ _ _ hs hi

/-- Witness for C6 at a concrete input: row `[1, 2, 3]` with window 2;
the second output entry is `2 + 3`. -/
theorem running_sum_eq_naive_witness :
    ((running_sum [[(1 : ℚ), 2, 3]] 2).getD 0 []).getD 1 0
      = ((([(1 : ℚ), 2, 3].drop 1).take 2)).sum :=
  ((running_sum_eq_naive [[(1 : ℚ), 2, 3]] 2 (by decide)).2 0 (by decide)).2 1 (by decide)

lemma getD_zipWith {f : K → K → K} {as bs : List K} {c : ℕ}
    (ha : c < as.length) (hb : c < bs.length) :
    (List.zipWith f as bs).getD c 0 = f (as.getD c 0) (bs.getD c 0) := by
  have h1 : c < (List.zipWith f as bs).length := by
    rw [List.length_zipWith]; exact lt_min ha hb
  rw [List.getD_eq_getElem _ _ h1, List.getElem_zipWith,
      List.getD_eq_getElem _ _ ha, List.getD_eq_getElem _ _ hb]

lemma length_column (c : ℕ) (m : List (List K)) : (column c m).length = m.length := by
  simp [column]

lemma sumColumns_getD (m : List (List K)) (c : ℕ) (h : c < (m.headD []).length) :
    (sumColumns m).getD c 0 = (column c m).sum := by
  unfold sumColumns
  rw [List.getD_eq_getElem _ _ (by simpa using h)]
  simp

lemma meanColumns_getD (m : List (List K)) (c : ℕ) (h : c < (m.headD []).length) :
    (meanColumns m).getD c 0 = (column c m).sum / (m.length : K) := by
  unfold meanColumns
  rw [List.getD_eq_getElem _ _ (by simpa using h)]
  simp

lemma column_normalizeWeights (weights : List (List K)) (sow : List K) (c : ℕ)
    (hw : ∀ row ∈ weights, c < row.length) (hs : c < sow.length) :
    column c (normalizeWeights weights sow)
      = weights.map (fun row =>
          if 0 < sow.getD c 0 then row.getD c 0 / sow.getD c 0 else row.getD c 0) := by
  unfold column normalizeWeights
  rw [List.map_map]
  apply List.map_congr_left
  intro row hrow
  simp only [Function.comp]
  exact getD_zipWith (hw row hrow) hs

lemma sum_map_getD_div (l : List (List K)) (c : ℕ) (S : K) :
    (l.map (fun row => row.getD c 0 / S)).sum = (column c l).sum / S := by
  simp only [div_eq_mul_inv, column]
  rw [← List.sum_map_mul_right]

lemma running_sum_length_of_mem (buffer : List (List K)) (L s : ℕ)
    (hrect : ∀ row ∈ buffer, row.length = L) :
    ∀ row ∈ running_sum buffer s, row.length = L - (s - 1) := by
  intro row hrow
  simp only [running_sum, List.mem_map] at hrow
  obtain ⟨r, hr, rfl⟩ := hrow
  rw [running_sum_row_length, hrect r hr]

lemma running_median_length_of_mem (buffer : List (List K)) (L s : ℕ)
    (hrect : ∀ row ∈ buffer, row.length = L) :
    ∀ row ∈ running_median buffer s, row.length = L + 1 - s := by
  intro row hrow
  simp only [running_median, List.mem_map] at hrow
  obtain ⟨r, hr, rfl⟩ := hrow
  simp [hrect r hr]

lemma headD_mem_of_ne_nil {α : Type} {d : α} {m : List α} (h : m ≠ []) : m.headD d ∈ m := by
  cases m with
  | nil => exact absurd rfl h
  | cons a as => exact List.mem_cons_self a as

/-- C5 (amended): for a rectangular buffer with at least one frame, at
every output column where the across-frame sum of the windowed weights is
strictly positive, the probabilities returned by `calculate_probability`
sum over the frames to 1 for the "sum" method and to the number of frames
for the "median" method (whose weights are normed by their across-frame
mean rather than their sum); at columns where that sum is not positive the
raw unnormalized weights are returned, for both methods. -/
theorem calculate_probability_normalization (buffer : List (List K)) (window L c : ℕ)
    (hrect : ∀ row ∈ buffer, row.length = L) (hn : 1 ≤ buffer.length)
    (hc : c < L + 1 - (2 * window + 1)) :
    (∀ probs, calculate_probability buffer window methodSum = some probs →
      (0 < (column c (running_sum buffer (2 * window + 1))).sum →
        (column c probs).sum = 1) ∧
      (¬ 0 < (column c (running_sum buffer (2 * window + 1))).sum →
        column c probs = column c (running_sum buffer (2 * window + 1)))) ∧
    (∀ probs, calculate_probability buffer window methodMedian = some probs →
      (0 < (column c (running_median buffer (2 * window + 1))).sum →
        (column c probs).sum = (buffer.length : K)) ∧
      (¬ 0 < (column c (running_median buffer (2 * window + 1))).sum →
        column c probs = column c (running_median buffer (2 * window + 1)))) := by
  have hbne : buffer ≠ [] := by
    intro h; rw [h] at hn; simp at hn
  constructor
  · -- "sum" method
    intro probs hp
    unfold calculate_probability at hp
    rw [if_neg (by decide), if_pos (show methodSum = "sum" from rfl)] at hp
    have hprobs : probs = normalizeWeights (running_sum buffer (2 * window + 1))
        (sumColumns (running_sum buffer (2 * window + 1))) := (Option.some.inj hp).symm
    have hwlen := running_sum_length_of_mem buffer L (2 * window + 1) hrect
    have hwne : running_sum buffer (2 * window + 1) ≠ [] := by
      simp only [running_sum]
      intro h
      exact hbne (List.map_eq_nil.mp h)
    have hwc : ∀ row ∈ running_sum buffer (2 * window + 1), c < row.length := by
      intro row hrow
      rw [hwlen row hrow]; omega
    have hhead : c < ((running_sum buffer (2 * window + 1)).headD []).length := by
      rw [hwlen _ (headD_mem_of_ne_nil hwne)]; omega
    have hsowlen : c < (sumColumns (running_sum buffer (2 * window + 1))).length := by
      simp only [sumColumns]
      simpa using hhead
    have hsval := sumColumns_getD (running_sum buffer (2 * window + 1)) c hhead
    constructor
    · intro hS
      rw [hprobs, column_normalizeWeights _ _ _ hwc hsowlen, hsval]
      simp only [hS, if_true]
      rw [sum_map_getD_div]
      exact div_self (ne_of_gt hS)
    · intro hS
      rw [hprobs, column_normalizeWeights _ _ _ hwc hsowlen, hsval]
      simp only [hS, if_false]
      rfl
  · -- "median" method
    intro probs hp
    unfold calculate_probability at hp
    rw [if_pos (show methodMedian = "median" from rfl)] at hp
    have hprobs : probs = normalizeWeights (running_median buffer (2 * window + 1))
        (meanColumns (running_median buffer (2 * window + 1))) := (Option.some.inj hp).symm
    have hwlen := running_median_length_of_mem buffer L (2 * window + 1) hrect
    have hwne : running_median buffer (2 * window + 1) ≠ [] := by
      simp only [running_median]
      intro h
      exact hbne (List.map_eq_nil.mp h)
    have hwc : ∀ row ∈ running_median buffer (2 * window + 1), c < row.length := by
      intro row hrow
      rw [hwlen row hrow]; omega
    have hhead : c < ((running_median buffer (2 * window + 1)).headD []).length := by
      rw [hwlen _ (headD_mem_of_ne_nil hwne)]; omega
    have hsowlen : c < (meanColumns (running_median buffer (2 * window + 1))).length := by
      simp only [meanColumns]
      simpa using hhead
    have hsval := meanColumns_getD (running_median buffer (2 * window + 1)) c hhead
    have hnlen : (running_median buffer (2 * window + 1)).length = buffer.length := by
      simp [running_median]
    have hn0 : (0 : K) < ((running_median buffer (2 * window + 1)).length : K) := by
      rw [hnlen]
      exact_mod_cast Nat.lt_of_lt_of_le Nat.zero_lt_one hn
    constructor
    · intro hS
      rw [hprobs, column_normalizeWeights _ _ _ hwc hsowlen, hsval]
      have hg : 0 < (column c (running_median buffer (2 * window + 1))).sum
          / ((running_median buffer (2 * window + 1)).length : K) := div_pos hS hn0
      simp only [hg, if_true]
      rw [sum_map_getD_div]
      rw [div_div_eq_mul_div, mul_comm, mul_div_assoc, div_self (ne_of_gt hS), mul_one, hnlen]
    · intro hS
      rw [hprobs, column_normalizeWeights _ _ _ hwc hsowlen, hsval]
      have hg : ¬ 0 < (column c (running_median buffer (2 * window + 1))).sum
          / ((running_median buffer (2 * window + 1)).length : K) := by
        intro h
        apply hS
        have := mul_pos h hn0
        rwa [div_mul_cancel₀ _ (ne_of_gt hn0)] at this
      simp only [hg, if_false]
      rfl

/-- C5 counterexample: with the "median" method on two frames the returned
probabilities sum to 2, not 1, at a column whose across-frame sum of
windowed weights is positive — the median weights are normed by their
across-frame mean, not their sum. -/
theorem calculate_probability_median_sums_to_two :
    (calculate_probability [[(1 : ℚ), 1, 1], [3, 3, 3]] 1 methodMedian).isSome = true ∧
    0 < (column 0 (running_median [[(1 : ℚ), 1, 1], [3, 3, 3]] 3)).sum ∧
    (column 0 ((calculate_probability [[(1 : ℚ), 1, 1], [3, 3, 3]] 1 methodMedian).getD [])).sum
      = 2 ∧ ((2 : ℚ) ≠ 1) := by
  refine ⟨rfl, ?_, ?_, by norm_num⟩
  · norm_num [running_median, medianList, column, List.insertionSort, List.orderedInsert,
      List.range_succ]
  · norm_num [calculate_probability, methodMedian, normalizeWeights, running_median,
      medianList, meanColumns, column, List.insertionSort, List.orderedInsert,
      List.range_succ]

/-- Witness for the amended C5 at a concrete input: two constant frames,
"sum" method; the probabilities at column 0 sum to 1. -/
theorem calculate_probability_normalization_witness :
    (column 0 ((calculate_probability [[(1 : ℚ), 1, 1], [1, 1, 1]] 1 methodSum).getD [])).sum
      = 1 := by
  have h := (calculate_probability_normalization [[(1 : ℚ), 1, 1], [1, 1, 1]] 1 3 0
      (by decide) (by decide) (by decide)).1
      ((calculate_probability [[(1 : ℚ), 1, 1], [1, 1, 1]] 1 methodSum).getD []) rfl
  refine h.1 ?_
  norm_num [running_sum, running_sum_row, cumsum, column, List.range_succ]

lemma headD_eq_getD_zero {A : Type} (d : A) (l : List A) : l.headD d = l.getD 0 d := by
  cases l <;> rfl

lemma getD_map_of_lt {A B : Type} (g : A → B) (row : List A) (c : ℕ) (d1 : A) (d2 : B)
    (h : c < row.length) : (row.map g).getD c d2 = g (row.getD c d1) := by
  rw [List.getD_eq_getElem _ _ (by simpa using h), List.getElem_map,
      List.getD_eq_getElem _ _ h]

lemma zip3With_length {A B C D : Type} (f : A → B → C → D) :
    ∀ (as : List A) (bs : List B) (cs : List C),
      (zip3With f as bs cs).length = min as.length (min bs.length cs.length) := by
  intro as
  induction as with
  | nil => intro bs cs; simp [zip3With]
  | cons a as ih =>
    intro bs cs
    cases bs with
    | nil => simp [zip3With]
    | cons b bs =>
      cases cs with
      | nil => simp [zip3With]
      | cons c cs =>
        simp only [zip3With, List.length_cons, ih]
        omega

lemma zip3With_getD {A B C D : Type} (f : A → B → C → D) (da : A) (db : B) (dc : C) (dd : D) :
    ∀ (as : List A) (bs : List B) (cs : List C) (i : ℕ),
      i < as.length → i < bs.length → i < cs.length →
      (zip3With f as bs cs).getD i dd = f (as.getD i da) (bs.getD i db) (cs.getD i dc) := by
  intro as
  induction as with
  | nil => intro bs cs i ha; simp at ha
  | cons a as ih =>
    intro bs cs i ha hb hc
    cases bs with
    | nil => simp at hb
    | cons b bs =>
      cases cs with
      | nil => simp at hc
      | cons c cs =>
        cases i with
        | zero => rfl
        | succ i =>
          simp only [zip3With, List.getD_cons_succ]
          exact ih bs cs i (by simpa using ha) (by simpa using hb) (by simpa using hc)

lemma column_eq_map (c : ℕ) (m : List (List K)) :
    column c m = (List.range m.length).map (fun f => colGet m f c) := by
  unfold column colGet
  apply List.ext_getElem
  · simp
  · intro i h1 h2
    rw [List.getElem_map, List.getElem_map, List.getElem_range,
        List.getD_eq_getElem m [] (by simpa using h1)]

lemma ratioOf_length (p b : List (List K)) :
    (ratioOf p b).length = min b.length p.length := by
  simp [ratioOf]

lemma ratioOf_colGet (p b : List (List K)) (f c : ℕ) (hfb : f < b.length) (hfp : f < p.length)
    (hcb : c < (b.getD f []).length) (hcp : c < (p.getD f []).length) :
    colGet (ratioOf p b) f c = specRatio p b f c := by
  unfold colGet ratioOf specRatio colGet
  have hf : f < (List.zipWith (List.zipWith fun b p => if 0 < p then b / p else 0) b p).length := by
    rw [List.length_zipWith]; exact lt_min hfb hfp
  rw [List.getD_eq_getElem _ _ hf, List.getElem_zipWith,
      ← List.getD_eq_getElem b [] hfb, ← List.getD_eq_getElem p [] hfp]
  exact getD_zipWith hcb hcp

lemma ratioOf_row_length (p b : List (List K)) (n L f : ℕ)
    (hbn : b.length = n) (hpn : p.length = n) (hf : f < n)
    (hbL : ∀ row ∈ b, row.length = L) (hpL : ∀ row ∈ p, row.length = L) :
    ((ratioOf p b).getD f []).length = L := by
  unfold ratioOf
  have hf2 : f < (List.zipWith (List.zipWith fun b p => if 0 < p then b / p else 0) b p).length := by
    rw [List.length_zipWith]; omega
  rw [List.getD_eq_getElem _ _ hf2, List.getElem_zipWith, List.length_zipWith]
  rw [hbL _ (List.getElem_mem _), hpL _ (List.getElem_mem _)]
  omega

lemma ratioOf_headD_length (p b : List (List K)) (n L : ℕ)
    (hbn : b.length = n) (hpn : p.length = n) (hn : 1 ≤ n)
    (hbL : ∀ row ∈ b, row.length = L) (hpL : ∀ row ∈ p, row.length = L) :
    ((ratioOf p b).headD []).length = L := by
  rw [headD_eq_getD_zero]
  exact ratioOf_row_length p b n L 0 hbn hpn (by omega) hbL hpL

lemma amplitudeOf_length (p b : List (List K)) :
    (amplitudeOf p b).length = ((ratioOf p b).headD []).length := by
  simp [amplitudeOf]

lemma amplitudeOf_getD (p b : List (List K)) (n L c : ℕ)
    (hbn : b.length = n) (hpn : p.length = n) (hn : 1 ≤ n) (hc : c < L)
    (hbL : ∀ row ∈ b, row.length = L) (hpL : ∀ row ∈ p, row.length = L) :
    (amplitudeOf p b).getD c 0 = specAmplitude p b n c := by
  have hhead := ratioOf_headD_length p b n L hbn hpn hn hbL hpL
  have hcol : column c (ratioOf p b) = (List.range n).map (fun f => specRatio p b f c) := by
    rw [column_eq_map, ratioOf_length, hbn, hpn, min_self]
    apply List.map_congr_left
    intro f hf
    rw [List.mem_range] at hf
    refine ratioOf_colGet p b f c (by omega) (by omega) ?_ ?_
    · rw [List.getD_eq_getElem _ _ (by omega), hbL _ (List.getElem_mem _)]; exact hc
    · rw [List.getD_eq_getElem _ _ (by omega), hpL _ (List.getElem_mem _)]; exact hc
  unfold amplitudeOf specAmplitude
  have hlen : c < ((List.range ((ratioOf p b).headD []).length).map (fun c =>
      ((column c (ratioOf p b)).sum - listMin (column c (ratioOf p b))
        - listMax (column c (ratioOf p b))) / ((b.length : K) - 2))).length := by
    rw [List.length_map, List.length_range, hhead]; exact hc
  rw [List.getD_eq_getElem _ _ hlen, List.getElem_map, List.getElem_range]
  simp only [hcol, hbn]

lemma fittedOf_length (p b : List (List K)) : (fittedOf p b).length = p.length := by
  simp [fittedOf]

lemma fittedOf_row_length (p b : List (List K)) (n L f : ℕ)
    (hbn : b.length = n) (hpn : p.length = n) (hn : 1 ≤ n) (hf : f < n)
    (hbL : ∀ row ∈ b, row.length = L) (hpL : ∀ row ∈ p, row.length = L) :
    ((fittedOf p b).getD f []).length = L := by
  have hrow : (p.getD f []).length = L := by
    rw [List.getD_eq_getElem p [] (by omega)]
    exact hpL _ (List.getElem_mem _)
  unfold fittedOf
  rw [getD_map_of_lt _ p f [] [] (by omega), List.length_zipWith]
  rw [hrow, amplitudeOf_length, ratioOf_headD_length p b n L hbn hpn hn hbL hpL]
  omega

lemma fittedOf_colGet (p b : List (List K)) (n L f c : ℕ)
    (hbn : b.length = n) (hpn : p.length = n) (hn : 1 ≤ n) (hf : f < n) (hc : c < L)
    (hbL : ∀ row ∈ b, row.length = L) (hpL : ∀ row ∈ p, row.length = L) :
    colGet (fittedOf p b) f c = specFitted p b n f c := by
  have hrow : (p.getD f []).length = L := by
    rw [List.getD_eq_getElem p [] (by omega)]
    exact hpL _ (List.getElem_mem _)
  unfold colGet fittedOf specFitted colGet
  rw [getD_map_of_lt _ p f [] [] (by omega)]
  rw [getD_zipWith (by rw [hrow]; exact hc)
      (by rw [amplitudeOf_length, ratioOf_headD_length p b n L hbn hpn hn hbL hpL]; exact hc)]
  rw [amplitudeOf_getD p b n L c hbn hpn hn hc hbL hpL]

lemma predictedOf_length (p b : List (List ℝ)) (rn g : ℝ) :
    (predictedOf p b rn g).length = p.length := by
  simp [predictedOf, fittedOf_length]

lemma predictedOf_row_length (p b : List (List ℝ)) (rn g : ℝ) (n L f : ℕ)
    (hbn : b.length = n) (hpn : p.length = n) (hn : 1 ≤ n) (hf : f < n)
    (hbL : ∀ row ∈ b, row.length = L) (hpL : ∀ row ∈ p, row.length = L) :
    ((predictedOf p b rn g).getD f []).length = L := by
  unfold predictedOf
  rw [getD_map_of_lt _ (fittedOf p b) f [] [] (by rw [fittedOf_length, hpn]; omega)]
  rw [List.length_map, fittedOf_row_length p b n L f hbn hpn hn hf hbL hpL]

lemma predictedOf_colGet (p b : List (List ℝ)) (rn g : ℝ) (n L f c : ℕ)
    (hbn : b.length = n) (hpn : p.length = n) (hn : 1 ≤ n) (hf : f < n) (hc : c < L)
    (hbL : ∀ row ∈ b, row.length = L) (hpL : ∀ row ∈ p, row.length = L) :
    colGet (predictedOf p b rn g) f c = specNoise p b rn g n f c := by
  have hrowf : ((fittedOf p b).getD f []).length = L :=
    fittedOf_row_length p b n L f hbn hpn hn hf hbL hpL
  have hfit := fittedOf_colGet p b n L f c hbn hpn hn hf hc hbL hpL
  unfold colGet at hfit
  unfold colGet predictedOf specNoise
  rw [getD_map_of_lt _ (fittedOf p b) f [] [] (by rw [fittedOf_length, hpn]; omega)]
  rw [getD_map_of_lt _ _ c 0 0 (by rw [hrowf]; exact hc)]
  rw [hfit]

lemma badOf_getD (p b : List (List ℝ)) (rn g t : ℝ) (n L f c : ℕ)
    (hbn : b.length = n) (hpn : p.length = n) (hn : 1 ≤ n) (hf : f < n) (hc : c < L)
    (hbL : ∀ row ∈ b, row.length = L) (hpL : ∀ row ∈ p, row.length = L) :
    ((badOf p b rn g t).getD f []).getD c false = specBad p b rn g t n f c := by
  have hbrow : (b.getD f []).length = L := by
    rw [List.getD_eq_getElem b [] (by omega)]
    exact hbL _ (List.getElem_mem _)
  have hfrow : ((fittedOf p b).getD f []).length = L :=
    fittedOf_row_length p b n L f hbn hpn hn hf hbL hpL
  have hsrow : ((predictedOf p b rn g).getD f []).length = L :=
    predictedOf_row_length p b rn g n L f hbn hpn hn hf hbL hpL
  have hfit := fittedOf_colGet p b n L f c hbn hpn hn hf hc hbL hpL
  unfold colGet at hfit
  have hpred := predictedOf_colGet p b rn g n L f c hbn hpn hn hf hc hbL hpL
  unfold colGet at hpred
  unfold badOf specBad colGet
  rw [zip3With_getD _ [] [] [] [] b (fittedOf p b) (predictedOf p b rn g) f
      (by omega) (by rw [fittedOf_length, hpn]; omega) (by rw [predictedOf_length, hpn]; omega)]
  rw [zip3With_getD _ 0 0 0 false _ _ _ c
      (by rw [hbrow]; exact hc) (by rw [hfrow]; exact hc) (by rw [hsrow]; exact hc)]
  rw [hfit, hpred]

lemma countP_id_eq_sum : ∀ (row : List Bool),
    row.countP id = (row.map (fun b => if b then 1 else 0)).sum := by
  intro row
  induction row with
  | nil => rfl
  | cons a l ih =>
    simp only [List.countP_cons, List.map_cons, List.sum_cons, ih, id]
    omega

lemma badOf_length (p b : List (List ℝ)) (rn g t : ℝ) (n : ℕ)
    (hbn : b.length = n) (hpn : p.length = n) :
    (badOf p b rn g t).length = n := by
  unfold badOf
  rw [zip3With_length, hbn, fittedOf_length, hpn, predictedOf_length, hpn]
  omega

lemma badOf_row_length (p b : List (List ℝ)) (rn g t : ℝ) (n L f : ℕ)
    (hbn : b.length = n) (hpn : p.length = n) (hn : 1 ≤ n) (hf : f < n)
    (hbL : ∀ row ∈ b, row.length = L) (hpL : ∀ row ∈ p, row.length = L) :
    ((badOf p b rn g t).getD f []).length = L := by
  have hbrow : (b.getD f []).length = L := by
    rw [List.getD_eq_getElem b [] (by omega)]
    exact hbL _ (List.getElem_mem _)
  unfold badOf
  rw [zip3With_getD _ [] [] [] [] b (fittedOf p b) (predictedOf p b rn g) f
      (by omega) (by rw [fittedOf_length, hpn]; omega) (by rw [predictedOf_length, hpn]; omega)]
  rw [zip3With_length, hbrow, fittedOf_row_length p b n L f hbn hpn hn hf hbL hpL,
      predictedOf_row_length p b rn g n L f hbn hpn hn hf hbL hpL]
  omega

lemma correctedOf_length (p b : List (List ℝ)) (rn g t : ℝ) (n : ℕ)
    (hbn : b.length = n) (hpn : p.length = n) :
    (correctedOf p b rn g t).length = n := by
  unfold correctedOf
  rw [zip3With_length, badOf_length p b rn g t n hbn hpn, fittedOf_length, hpn, hbn]
  omega

lemma correctedOf_row_length (p b : List (List ℝ)) (rn g t : ℝ) (n L f : ℕ)
    (hbn : b.length = n) (hpn : p.length = n) (hn : 1 ≤ n) (hf : f < n)
    (hbL : ∀ row ∈ b, row.length = L) (hpL : ∀ row ∈ p, row.length = L) :
    ((correctedOf p b rn g t).getD f []).length = L := by
  have hbrow : (b.getD f []).length = L := by
    rw [List.getD_eq_getElem b [] (by omega)]
    exact hbL _ (List.getElem_mem _)
  unfold correctedOf
  rw [zip3With_getD _ [] [] [] [] (badOf p b rn g t) (fittedOf p b) b f
      (by rw [badOf_length p b rn g t n hbn hpn]; omega)
      (by rw [fittedOf_length, hpn]; omega) (by omega)]
  rw [zip3With_length, badOf_row_length p b rn g t n L f hbn hpn hn hf hbL hpL,
      fittedOf_row_length p b n L f hbn hpn hn hf hbL hpL, hbrow]
  omega

lemma correctedOf_colGet (p b : List (List ℝ)) (rn g t : ℝ) (n L f c : ℕ)
    (hbn : b.length = n) (hpn : p.length = n) (hn : 1 ≤ n) (hf : f < n) (hc : c < L)
    (hbL : ∀ row ∈ b, row.length = L) (hpL : ∀ row ∈ p, row.length = L) :
    colGet (correctedOf p b rn g t) f c
      = if specBad p b rn g t n f c then specFitted p b n f c else colGet b f c := by
  have hbrow : (b.getD f []).length = L := by
    rw [List.getD_eq_getElem b [] (by omega)]
    exact hbL _ (List.getElem_mem _)
  have hbad := badOf_getD p b rn g t n L f c hbn hpn hn hf hc hbL hpL
  have hfit := fittedOf_colGet p b n L f c hbn hpn hn hf hc hbL hpL
  unfold colGet at hfit
  unfold colGet correctedOf
  rw [zip3With_getD _ [] [] [] [] (badOf p b rn g t) (fittedOf p b) b f
      (by rw [badOf_length p b rn g t n hbn hpn]; omega)
      (by rw [fittedOf_length, hpn]; omega) (by omega)]
  rw [zip3With_getD _ false 0 0 0 _ _ _ c
      (by rw [badOf_row_length p b rn g t n L f hbn hpn hn hf hbL hpL]; exact hc)
      (by rw [fittedOf_row_length p b n L f hbn hpn hn hf hbL hpL]; exact hc)
      (by rw [hbrow]; exact hc)]
  rw [hbad, hfit]

/-- C1: on `N ≥ 3` frames, `fix_bad_pixels` scales each column by the
trimmed mean `amplitude[c] = (sum(ratio) − min(ratio) − max(ratio))/(N−2)`
with `ratio[f] = buffer[f,c]/probability[f,c]` where the probability is
positive and 0 otherwise, and its returned row is, per column, the sum
over the frames of the fitted signal for flagged frames and of the raw
buffer for unflagged frames, together with the total number of flagged
pixels. -/
theorem fix_bad_pixels_spec (p b : List (List ℝ)) (rn g t : ℝ) (n L : ℕ)
    (hn : 3 ≤ n) (hbn : b.length = n) (hpn : p.length = n)
    (hbL : ∀ row ∈ b, row.length = L) (hpL : ∀ row ∈ p, row.length = L) :
    (∀ c, c < L → (amplitudeOf p b).getD c 0 = specAmplitude p b n c) ∧
    (fix_bad_pixels p b rn g t).1.length = L ∧
    (∀ c, c < L → (fix_bad_pixels p b rn g t).1.getD c 0
        = ((List.range n).map (fun f =>
            if specBad p b rn g t n f c then specFitted p b n f c else colGet b f c)).sum) ∧
    (fix_bad_pixels p b rn g t).2
      = ((List.range n).map (fun f =>
          ((List.range L).map (fun c =>
            if specBad p b rn g t n f c then 1 else 0)).sum)).sum := by
  have hn1 : 1 ≤ n := by omega
  have hWhead : ((correctedOf p b rn g t).headD []).length = L := by
    rw [headD_eq_getD_zero]
    exact correctedOf_row_length p b rn g t n L 0 hbn hpn hn1 (by omega) hbL hpL
  refine ⟨?_, ?_, ?_, ?_⟩
  · intro c hc
    exact amplitudeOf_getD p b n L c hbn hpn hn1 hc hbL hpL
  · simp only [fix_bad_pixels, sumColumns]
    rw [List.length_map, List.length_range, hWhead]
  · intro c hc
    simp only [fix_bad_pixels]
    rw [sumColumns_getD _ c (by rw [hWhead]; exact hc)]
    rw [column_eq_map, correctedOf_length p b rn g t n hbn hpn]
    apply congrArg List.sum
    apply List.map_congr_left
    intro f hf
    rw [List.mem_range] at hf
    exact correctedOf_colGet p b rn g t n L f c hbn hpn hn1 hf hc hbL hpL
  · simp only [fix_bad_pixels]
    apply congrArg List.sum
    apply List.ext_getElem
    · rw [List.length_map, badOf_length p b rn g t n hbn hpn,
          List.length_map, List.length_range]
    · intro f h1 h2
      have hf : f < n := by
        rw [List.length_map, badOf_length p b rn g t n hbn hpn] at h1
        exact h1
      rw [List.getElem_map, List.getElem_map, List.getElem_range]
      rw [countP_id_eq_sum]
      apply congrArg List.sum
      apply List.ext_getElem
      · rw [List.length_map, ← List.getD_eq_getElem (badOf p b rn g t) []
            (by rw [badOf_length p b rn g t n hbn hpn]; omega),
            badOf_row_length p b rn g t n L f hbn hpn hn1 hf hbL hpL,
            List.length_map, List.length_range]
      · intro c hc1 hc2
        have hc : c < L := by
          rw [List.length_map, ← List.getD_eq_getElem (badOf p b rn g t) []
              (by rw [badOf_length p b rn g t n hbn hpn]; omega),
              badOf_row_length p b rn g t n L f hbn hpn hn1 hf hbL hpL] at hc1
          exact hc1
        rw [List.getElem_map, List.getElem_map, List.getElem_range]
        have hfb : f < (badOf p b rn g t).length := by
          rw [badOf_length p b rn g t n hbn hpn]; omega
        have hcb : c < ((badOf p b rn g t)[f]).length := by
          rwa [List.length_map] at hc1
        have hfc : (badOf p b rn g t)[f][c] = specBad p b rn g t n f c := by
          rw [← List.getD_eq_getElem ((badOf p b rn g t)[f]) false
              (by rwa [List.length_map] at hc1)]
          rw [← List.getD_eq_getElem (badOf p b rn g t) []
              (by rw [badOf_length p b rn g t n hbn hpn]; omega)]
          exact badOf_getD p b rn g t n L f c hbn hpn hn1 hf hc hbL hpL
        rw [hfc]

/-- Witness for C1 at a concrete input: three frames, one column,
probability 1 and value 2 everywhere; the amplitude at column 0 equals the
trimmed-mean formula. -/
theorem fix_bad_pixels_spec_witness :
    (amplitudeOf [[(1 : ℝ)], [1], [1]] [[(2 : ℝ)], [2], [2]]).getD 0 0
      = specAmplitude [[(1 : ℝ)], [1], [1]] [[(2 : ℝ)], [2], [2]] 3 0 :=
  (fix_bad_pixels_spec [[(1 : ℝ)], [1], [1]] [[(2 : ℝ)], [2], [2]] 1 1 2 3 1
    (by decide) (by decide) (by decide)
    (by intro row h; fin_cases h <;> rfl) (by intro row h; fin_cases h <;> rfl)).1 0 (by decide)

/-- C3 (amended): in `fix_bad_pixels` the predicted noise of frame `f` at
column `c` equals `sqrt(read_noise² + fitted_signal/gain)` whenever
`read_noise² + fitted_signal/gain ≥ 0` and `0` otherwise — the guard is on
the whole square-root argument, not on the shot-noise term alone, so the
predicted noise can fall below the read noise when `fitted_signal/gain` is
negative. -/
theorem predicted_noise_formula (p b : List (List ℝ)) (rn g : ℝ) (n L f c : ℕ)
    (hbn : b.length = n) (hpn : p.length = n) (hn : 1 ≤ n) (hf : f < n) (hc : c < L)
    (hbL : ∀ row ∈ b, row.length = L) (hpL : ∀ row ∈ p, row.length = L) :
    colGet (predictedOf p b rn g) f c
      = if 0 ≤ rn ^ 2 + specFitted p b n f c / g
        then Real.sqrt (rn ^ 2 + specFitted p b n f c / g) else 0 := by
  rw [predictedOf_colGet p b rn g n L f c hbn hpn hn hf hc hbL hpL]
  rfl

/-- Witness for the amended C3 at a concrete input: three frames, one
column, probability 1, value 2, read noise 1, gain 1. -/
theorem predicted_noise_formula_witness :
    colGet (predictedOf [[(1 : ℝ)], [1], [1]] [[(2 : ℝ)], [2], [2]] 1 1) 0 0
      = if 0 ≤ (1 : ℝ) ^ 2 + specFitted [[(1 : ℝ)], [1], [1]] [[(2 : ℝ)], [2], [2]] 3 0 0 / 1
        then Real.sqrt ((1 : ℝ) ^ 2
          + specFitted [[(1 : ℝ)], [1], [1]] [[(2 : ℝ)], [2], [2]] 3 0 0 / 1) else 0 :=
  predicted_noise_formula [[(1 : ℝ)], [1], [1]] [[(2 : ℝ)], [2], [2]] 1 1 3 1 0 0
    (by decide) (by decide) (by decide) (by decide) (by decide)
    (by intro row h; fin_cases h <;> rfl) (by intro row h; fin_cases h <;> rfl)

lemma predicted_noise_counterexample_fitted :
    specFitted [[(1 : ℝ)], [1], [1]] [[(-9 : ℝ)], [-9], [-9]] 3 0 0 = -9 := by
  norm_num [specFitted, specAmplitude, specRatio, colGet, listMin, listMax,
    List.range_succ, List.getD_cons_zero, List.getD_cons_succ]

/-- C3 counterexample: with probability 1 for three frames of value −9,
read noise 5 and gain 1, the code computes `sqrt(5² + (−9)/1) = 4`,
whereas the claimed formula `sqrt(5² + max((−9)/1, 0))` gives 5; in
particular the predicted noise falls strictly below the read noise. -/
theorem predicted_noise_counterexample :
    colGet (predictedOf [[(1 : ℝ)], [1], [1]] [[(-9 : ℝ)], [-9], [-9]] 5 1) 0 0 = 4 ∧
    Real.sqrt (5 ^ 2 + max ((-9 : ℝ) / 1) 0) = 5 ∧
    ((4 : ℝ) ≠ 5) ∧
    colGet (predictedOf [[(1 : ℝ)], [1], [1]] [[(-9 : ℝ)], [-9], [-9]] 5 1) 0 0 < 5 := by
  have hval : colGet (predictedOf [[(1 : ℝ)], [1], [1]] [[(-9 : ℝ)], [-9], [-9]] 5 1) 0 0
      = (4 : ℝ) := by
    rw [predictedOf_colGet [[(1 : ℝ)], [1], [1]] [[(-9 : ℝ)], [-9], [-9]] 5 1 3 1 0 0
      (by decide) (by decide) (by decide) (by decide) (by decide)
      (by intro row h; fin_cases h <;> rfl) (by intro row h; fin_cases h <;> rfl)]
    unfold specNoise
    rw [predicted_noise_counterexample_fitted]
    rw [if_pos (by norm_num)]
    rw [show (5 : ℝ) ^ 2 + -9 / 1 = 4 ^ 2 by norm_num]
    exact Real.sqrt_sq (by norm_num)
  have hspec : Real.sqrt (5 ^ 2 + max ((-9 : ℝ) / 1) 0) = 5 := by
    rw [show (5 : ℝ) ^ 2 + max ((-9 : ℝ) / 1) 0 = 5 ^ 2 by
      rw [max_eq_right (by norm_num : (-9 : ℝ) / 1 ≤ 0)]; norm_num]
    exact Real.sqrt_sq (by norm_num)
  exact ⟨hval, hspec, by norm_num, by rw [hval]; norm_num⟩

lemma foldl_min_replicate (a : K) (k : ℕ) : (List.replicate k a).foldl min a = a := by
  induction k with
  | zero => rfl
  | succ k ih => rw [List.replicate_succ, List.foldl_cons, min_self]; exact ih

lemma foldl_max_replicate (a : K) (k : ℕ) : (List.replicate k a).foldl max a = a := by
  induction k with
  | zero => rfl
  | succ k ih => rw [List.replicate_succ, List.foldl_cons, max_self]; exact ih

lemma listMin_replicate (a : K) (n : ℕ) (hn : 1 ≤ n) :
    listMin (List.replicate n a) = a := by
  obtain ⟨k, rfl⟩ : ∃ k, n = k + 1 := ⟨n - 1, by omega⟩
  rw [List.replicate_succ]
  simp only [listMin]
  exact foldl_min_replicate a k

lemma listMax_replicate (a : K) (n : ℕ) (hn : 1 ≤ n) :
    listMax (List.replicate n a) = a := by
  obtain ⟨k, rfl⟩ : ∃ k, n = k + 1 := ⟨n - 1, by omega⟩
  rw [List.replicate_succ]
  simp only [listMax]
  exact foldl_max_replicate a k

lemma getD_replicate {A : Type} (a d : A) (n c : ℕ) (h : c < n) :
    (List.replicate n a).getD c d = a := by
  rw [List.getD_eq_getElem _ _ (by simpa using h), List.getElem_replicate]

lemma headD_replicate {A : Type} (a d : A) (n : ℕ) (hn : 1 ≤ n) :
    (List.replicate n a).headD d = a := by
  obtain ⟨k, rfl⟩ : ∃ k, n = k + 1 := ⟨n - 1, by omega⟩
  rw [List.replicate_succ]
  rfl

lemma zipWith_replicate_same {A B C : Type} (f : A → B → C) (n : ℕ) (a : A) (b : B) :
    List.zipWith f (List.replicate n a) (List.replicate n b) = List.replicate n (f a b) := by
  induction n with
  | zero => rfl
  | succ n ih => simp only [List.replicate_succ, List.zipWith_cons_cons, ih]

lemma zipWith_replicate_right {A B C : Type} (f : A → B → C) (b : B) :
    ∀ (as : List A), List.zipWith f as (List.replicate as.length b) = as.map (fun a => f a b) := by
  intro as
  induction as with
  | nil => rfl
  | cons a l ih => simp only [List.length_cons, List.replicate_succ,
      List.zipWith_cons_cons, List.map_cons, ih]

lemma zip3With_replicate {A B C D : Type} (f : A → B → C → D) (n : ℕ) (a : A) (b : B) (c : C) :
    zip3With f (List.replicate n a) (List.replicate n b) (List.replicate n c)
      = List.replicate n (f a b c) := by
  induction n with
  | zero => rfl
  | succ n ih => simp only [List.replicate_succ, zip3With, ih]

lemma map_eq_replicate_of_const {A B : Type} (l : List A) (f : A → B) (bv : B)
    (h : ∀ x ∈ l, f x = bv) : l.map f = List.replicate l.length bv := by
  induction l with
  | nil => rfl
  | cons a l ih =>
    simp only [List.map_cons, List.length_cons, List.replicate_succ]
    rw [h a (List.mem_cons_self a l), ih (fun x hx => h x (List.mem_cons_of_mem a hx))]

lemma column_replicate (c n : ℕ) (row : List K) :
    column c (List.replicate n row) = List.replicate n (row.getD c 0) := by
  simp [column, List.map_replicate]

lemma sum_replicate_mul (n : ℕ) (x : K) : (List.replicate n x).sum = (n : K) * x := by
  rw [List.sum_replicate, nsmul_eq_mul]

lemma sumColumns_replicate (n W : ℕ) (x : K) (hn : 1 ≤ n) :
    sumColumns (List.replicate n (List.replicate W x)) = List.replicate W ((n : K) * x) := by
  unfold sumColumns
  rw [headD_replicate _ _ _ hn, List.length_replicate]
  have h : ∀ c ∈ List.range W,
      (column c (List.replicate n (List.replicate W x))).sum = (n : K) * x := by
    intro c hc
    rw [List.mem_range] at hc
    rw [column_replicate, getD_replicate _ _ _ _ hc, sum_replicate_mul]
  rw [List.map_congr_left h, List.map_const', List.length_range]

lemma countP_id_replicate_false (L : ℕ) : (List.replicate L false).countP id = 0 := by
  induction L with
  | zero => rfl
  | succ L ih => simp only [List.replicate_succ, List.countP_cons, ih]; rfl

lemma fix_bad_pixels_const (n L : ℕ) (q v rn g t : ℝ) (hn : 3 ≤ n) (ht : 0 ≤ t)
    (hqv : 0 < q ∨ v = 0) :
    fix_bad_pixels (List.replicate n (List.replicate L q))
        (List.replicate n (List.replicate L v)) rn g t
      = (List.replicate L ((n : ℝ) * v), 0) := by
  have hn1 : 1 ≤ n := by omega
  have hr : ratioOf (List.replicate n (List.replicate L q))
      (List.replicate n (List.replicate L v))
      = List.replicate n (List.replicate L (if 0 < q then v / q else 0)) := by
    unfold ratioOf
    rw [zipWith_replicate_same, zipWith_replicate_same]
  have hnne : (n : ℝ) - 2 ≠ 0 := by
    have h3 : (3 : ℝ) ≤ (n : ℝ) := by exact_mod_cast hn
    linarith
  have hamp : amplitudeOf (List.replicate n (List.replicate L q))
      (List.replicate n (List.replicate L v))
      = List.replicate L (if 0 < q then v / q else 0) := by
    unfold amplitudeOf
    simp only [hr, List.length_replicate]
    rw [headD_replicate _ _ _ hn1, List.length_replicate]
    have h : ∀ c ∈ List.range L,
        ((column c (List.replicate n (List.replicate L (if 0 < q then v / q else 0)))).sum
          - listMin (column c (List.replicate n
              (List.replicate L (if 0 < q then v / q else 0))))
          - listMax (column c (List.replicate n
              (List.replicate L (if 0 < q then v / q else 0)))))
          / ((n : ℝ) - 2) = (if 0 < q then v / q else 0) := by
      intro c hc
      rw [List.mem_range] at hc
      rw [column_replicate, getD_replicate _ _ _ _ hc, sum_replicate_mul,
          listMin_replicate _ _ hn1, listMax_replicate _ _ hn1]
      rw [show (n : ℝ) * (if 0 < q then v / q else 0) - (if 0 < q then v / q else 0)
          - (if 0 < q then v / q else 0)
          = ((n : ℝ) - 2) * (if 0 < q then v / q else 0) from by ring]
      exact mul_div_cancel_left₀ _ hnne
    rw [List.map_congr_left h, List.map_const', List.length_range]
  have hfv : (if 0 < q then (if 0 < q then v / q else 0) * q else 0) = v := by
    by_cases hq : 0 < q
    · rw [if_pos hq, if_pos hq, div_mul_cancel₀ v (ne_of_gt hq)]
    · rw [if_neg hq]
      rcases hqv with h | h
      · exact absurd h hq
      · exact h.symm
  have hfit : fittedOf (List.replicate n (List.replicate L q))
      (List.replicate n (List.replicate L v))
      = List.replicate n (List.replicate L v) := by
    unfold fittedOf
    simp only [hamp]
    rw [List.map_replicate, zipWith_replicate_same, hfv]
  obtain ⟨s₀, hpred, hs₀⟩ : ∃ s₀,
      predictedOf (List.replicate n (List.replicate L q))
        (List.replicate n (List.replicate L v)) rn g
        = List.replicate n (List.replicate L s₀) ∧ 0 ≤ s₀ := by
    refine ⟨if 0 ≤ rn ^ 2 + v / g then Real.sqrt (rn ^ 2 + v / g) else 0, ?_, ?_⟩
    · unfold predictedOf
      rw [hfit, List.map_replicate, List.map_replicate]
    · by_cases h : 0 ≤ rn ^ 2 + v / g
      · rw [if_pos h]; exact Real.sqrt_nonneg _
      · rw [if_neg h]
  have hbadval : (decide (t * s₀ < v - v)) = false := by
    apply decide_eq_false
    rw [sub_self]
    exact not_lt.mpr (mul_nonneg ht hs₀)
  have hbad : badOf (List.replicate n (List.replicate L q))
      (List.replicate n (List.replicate L v)) rn g t
      = List.replicate n (List.replicate L false) := by
    unfold badOf
    rw [hfit, hpred, zip3With_replicate, zip3With_replicate, hbadval]
  have hcorr : correctedOf (List.replicate n (List.replicate L q))
      (List.replicate n (List.replicate L v)) rn g t
      = List.replicate n (List.replicate L v) := by
    unfold correctedOf
    rw [hbad, hfit, zip3With_replicate, zip3With_replicate]
    simp
  unfold fix_bad_pixels
  rw [hcorr, hbad, sumColumns_replicate _ _ _ hn1, List.map_replicate,
      countP_id_replicate_false]
  simp [List.sum_replicate]

lemma leftExtrapolate_getD (p : List K) (w c : ℕ) (h : c < p.length) :
    (leftExtrapolate p w).getD c 0
      = if c < w then 2 * p.getD w 0 - p.getD (2 * w - c) 0 else p.getD c 0 := by
  unfold leftExtrapolate
  rw [List.getD_eq_getElem _ _ (by simpa using h), List.getElem_map, List.getElem_range]

lemma running_sum_row_replicate (L s : ℕ) (v : K) (hs : 1 ≤ s) (hsL : s ≤ L) :
    running_sum_row (List.replicate L v) s = List.replicate (L + 1 - s) ((s : K) * v) := by
  apply List.ext_getElem
  · rw [running_sum_row_length, List.length_replicate, List.length_replicate]; omega
  · intro i h1 h2
    have hi : i < L + 1 - s := by
      rw [running_sum_row_length, List.length_replicate] at h1; omega
    rw [← List.getD_eq_getElem (running_sum_row (List.replicate L v) s) 0 h1]
    rw [running_sum_row_getD _ s i hs (by rw [List.length_replicate]; omega)]
    rw [List.getElem_replicate]
    rw [List.drop_replicate, List.take_replicate]
    rw [show min s (L - i) = s from by omega]
    exact sum_replicate_mul s v

lemma extrapolate_const_center (irow : List K) (w L : ℕ) (q : K)
    (hlen : irow.length = L) (hw : 1 ≤ w) (hL : 3 * w + 1 ≤ L) :
    extrapolate_probability
        (irow.take w ++ List.replicate (L - 2 * w) q ++ irow.drop (L - w)) w
      = List.replicate L q := by
  have htw : (irow.take w).length = w := by rw [List.length_take]; omega
  have hrowlen : (irow.take w ++ List.replicate (L - 2 * w) q
      ++ irow.drop (L - w)).length = L := by
    simp only [List.length_append, List.length_replicate, List.length_drop, htw, hlen]
    omega
  have hmid : ∀ c, w ≤ c → c < L - w →
      (irow.take w ++ List.replicate (L - 2 * w) q ++ irow.drop (L - w)).getD c 0 = q := by
    intro c h1 h2
    rw [List.getD_append _ _ _ _
        (by rw [List.length_append, htw, List.length_replicate]; omega)]
    rw [List.getD_append_right _ _ _ _ (by rw [htw]; omega)]
    rw [htw]
    exact getD_replicate _ _ _ _ (by omega)
  have hleftval : ∀ c, c < L - w →
      (leftExtrapolate (irow.take w ++ List.replicate (L - 2 * w) q
        ++ irow.drop (L - w)) w).getD c 0 = q := by
    intro c hc
    rw [leftExtrapolate_getD _ _ _ (by rw [hrowlen]; omega)]
    by_cases hcw : c < w
    · rw [if_pos hcw, hmid w (le_refl w) (by omega), hmid (2 * w - c) (by omega) (by omega)]
      ring
    · rw [if_neg hcw, hmid c (by omega) hc]
  unfold extrapolate_probability
  simp only [hrowlen]
  have hrep : List.replicate L q = (List.range L).map (fun _ => q) := by
    rw [List.map_const', List.length_range]
  rw [hrep]
  apply List.map_congr_left
  intro c hc
  rw [List.mem_range] at hc
  by_cases hcR : L - w ≤ c
  · rw [if_pos hcR, hleftval (L - w - 1) (by omega),
        hleftval (2 * (L - w - 1) + 1 - c) (by omega)]
    ring
  · rw [if_neg hcR, hleftval c (by omega)]

/-- C4: evaluation of the edge extrapolation at a concrete row of length
10 with window 2 (central columns 2..7 hold 10,20,...,60).  At the
right-edge column 8 the code produces `p[7] = 60` (it reads the reflected
column `2*(L−w−1)+1−c`), whereas the linear-reflection formula of the
claim, `2*p[L−w−1] − p[2*(L−w−1)−c]`, gives 70; at the left-edge column 0
the code does satisfy the claimed formula. -/
theorem extrapolate_right_edge_bug :
    (extrapolate_probability [(0 : ℚ), 0, 10, 20, 30, 40, 50, 60, 0, 0] 2).getD 8 0 = 60 ∧
    2 * ([(0 : ℚ), 0, 10, 20, 30, 40, 50, 60, 0, 0].getD (10 - 2 - 1) 0)
      - [(0 : ℚ), 0, 10, 20, 30, 40, 50, 60, 0, 0].getD (2 * (10 - 2 - 1) - 8) 0 = 70 ∧
    ((60 : ℚ) ≠ 70) ∧
    (extrapolate_probability [(0 : ℚ), 0, 10, 20, 30, 40, 50, 60, 0, 0] 2).getD 0 0
      = 2 * ([(0 : ℚ), 0, 10, 20, 30, 40, 50, 60, 0, 0].getD 2 0)
        - [(0 : ℚ), 0, 10, 20, 30, 40, 50, 60, 0, 0].getD (2 * 2 - 0) 0 := by
  refine ⟨?_, by norm_num, by norm_num, ?_⟩
  · norm_num [extrapolate_probability, leftExtrapolate, List.range_succ]
  · norm_num [extrapolate_probability, leftExtrapolate, List.range_succ]

/-- C2: on the `N ≥ 3` path, combining `N` identical constant frames of
non-negative value `v` with the row-combination core of `combine_frames`
(default "sum" probability method, window `w ≥ 1` with `3w + 1 ≤ L`, a
non-negative threshold, and arbitrary previous contents of the reused
probability array) yields `N*v` at every pixel of the row and a bad-pixel
count of 0. -/
theorem combine_row_constant (n L w : ℕ) (v rn g t : ℝ) (probInit : List (List ℝ))
    (hn : 3 ≤ n) (hw : 1 ≤ w) (hL : 3 * w + 1 ≤ L) (hv : 0 ≤ v) (ht : 0 ≤ t)
    (hpi : probInit.length = n) (hpiL : ∀ row ∈ probInit, row.length = L) :
    combine_row probInit (List.replicate n (List.replicate L v)) w rn g t
      = (List.replicate L ((n : ℝ) * v), 0) := by
  have hn1 : 1 ≤ n := by omega
  have hrs : running_sum (List.replicate n (List.replicate L v)) (2 * w + 1)
      = List.replicate n (List.replicate (L + 1 - (2 * w + 1))
          (((2 * w + 1 : ℕ) : ℝ) * v)) := by
    unfold running_sum
    rw [List.map_replicate, running_sum_row_replicate _ _ _ (by omega) (by omega)]
  have hsc : sumColumns (List.replicate n (List.replicate (L + 1 - (2 * w + 1))
        (((2 * w + 1 : ℕ) : ℝ) * v)))
      = List.replicate (L + 1 - (2 * w + 1))
          ((n : ℝ) * (((2 * w + 1 : ℕ) : ℝ) * v)) :=
    sumColumns_replicate _ _ _ hn1
  obtain ⟨q, hq, hqv⟩ : ∃ q : ℝ,
      (if 0 < (n : ℝ) * (((2 * w + 1 : ℕ) : ℝ) * v)
       then (((2 * w + 1 : ℕ) : ℝ) * v) / ((n : ℝ) * (((2 * w + 1 : ℕ) : ℝ) * v))
       else ((2 * w + 1 : ℕ) : ℝ) * v) = q ∧ (0 < q ∨ v = 0) := by
    rcases eq_or_lt_of_le hv with hv0 | hvpos
    · exact ⟨_, rfl, Or.inr hv0.symm⟩
    · have hsv : 0 < ((2 * w + 1 : ℕ) : ℝ) * v := by
        apply mul_pos _ hvpos
        exact_mod_cast Nat.succ_pos (2 * w)
      have hn0 : 0 < (n : ℝ) := by exact_mod_cast Nat.lt_of_lt_of_le Nat.zero_lt_one hn1
      have hnsv : 0 < (n : ℝ) * (((2 * w + 1 : ℕ) : ℝ) * v) := mul_pos hn0 hsv
      refine ⟨1 / (n : ℝ), ?_, Or.inl (by positivity)⟩
      rw [if_pos hnsv]
      rw [div_mul_eq_div_div_swap, div_self (ne_of_gt hsv)]
  have hcalc : calculate_probability (List.replicate n (List.replicate L v)) w methodSum
      = some (List.replicate n (List.replicate (L + 1 - (2 * w + 1)) q)) := by
    unfold calculate_probability
    rw [if_neg (by decide), if_pos (show methodSum = "sum" from rfl)]
    rw [hrs, hsc]
    unfold normalizeWeights
    rw [List.map_replicate, zipWith_replicate_same, hq]
  unfold combine_row
  rw [hcalc, Option.getD_some]
  have hsplice : List.zipWith (fun initRow wRow =>
        initRow.take w ++ wRow ++ initRow.drop (w + wRow.length))
      probInit (List.replicate n (List.replicate (L + 1 - (2 * w + 1)) q))
      = probInit.map (fun irow => irow.take w ++ List.replicate (L + 1 - (2 * w + 1)) q
          ++ irow.drop (w + (L + 1 - (2 * w + 1)))) := by
    rw [show n = probInit.length from hpi.symm]
    rw [zipWith_replicate_right]
    apply List.map_congr_left
    intro a _
    simp only [List.length_replicate]
  rw [hsplice]
  have hext : ∀ irow ∈ probInit,
      ((fun p => extrapolate_probability p w) ∘ (fun irow : List ℝ =>
        irow.take w ++ List.replicate (L + 1 - (2 * w + 1)) q
          ++ irow.drop (w + (L + 1 - (2 * w + 1))))) irow
      = List.replicate L q := by
    intro irow hirow
    simp only [Function.comp_apply]
    rw [show L + 1 - (2 * w + 1) = L - 2 * w from by omega]
    rw [show w + (L - 2 * w) = L - w from by omega]
    exact extrapolate_const_center irow w L q (hpiL irow hirow) hw hL
  rw [List.map_map, map_eq_replicate_of_const probInit _ (List.replicate L q) hext, hpi]
  exact fix_bad_pixels_const n L q v rn g t hn ht hqv

/-- Witness for C2 at a concrete input: three frames of four pixels with
value 1, window 1, read noise 5, gain 1, threshold 7/2 and a zeroed
probability array; the combined row is 3 at every pixel and no pixel is
flagged. -/
theorem combine_row_constant_witness :
    combine_row (List.replicate 3 (List.replicate 4 (0 : ℝ)))
        (List.replicate 3 (List.replicate 4 (1 : ℝ))) 1 5 1 (7 / 2)
      = (List.replicate 4 ((3 : ℝ) * 1), 0) :=
  combine_row_constant 3 4 1 1 5 1 (7 / 2) (List.replicate 3 (List.replicate 4 0))
    (by decide) (by decide) (by decide) (by norm_num) (by norm_num) (by decide)
    (by intro row h; fin_cases h <;> rfl)

/-- C7 (amended): on the two-file and `N ≥ 3` paths of `combine_frames`
the returned header carries the summed exposure time, the reference
read-noise values each multiplied by `sqrt(N)`, the image count, and the
recorded bad-pixel count (0 on the two-file path); the single-file path
returns the loaded header unchanged. -/
theorem combine_frames_header_post (headers : List FitsHeader) (n_fixed : ℕ)
    (h2 : 2 ≤ headers.length) :
    ∃ out, combine_frames_header headers n_fixed = .ok out ∧
      out.exptime = (headers.map (fun h => h.exptime)).sum ∧
      out.rdnoise = some ((refReadnoise headers).map
        (fun rdn => rdn * Real.sqrt ((headers.length : ℕ) : ℝ))) ∧
      out.nimages = some headers.length ∧
      out.npixfix = some (if headers.length = 2 then 0 else n_fixed) := by
  match headers with
  | [] => simp at h2
  | [h] => simp at h2
  | [h1, hx] =>
    refine ⟨_, rfl, ?_, ?_, ?_, ?_⟩
    · simp [finishHeader]
    · simp [finishHeader, refReadnoise]
    · simp [finishHeader]
    · simp [finishHeader]
  | h1 :: hx :: h3 :: rest =>
    have hlen : (h1 :: hx :: h3 :: rest).length ≠ 2 := by simp
    refine ⟨_, rfl, ?_, ?_, ?_, ?_⟩
    · simp [finishHeader]
    · simp [finishHeader, refReadnoise, hlen]
    · simp [finishHeader]
    · simp [finishHeader, hlen]

/-- C7 counterexample: with a single input file `combine_frames` returns
the loaded header as is (combine_frames.py lines 261-263, before any
header post-processing), so no bad-pixel count is recorded. -/
theorem combine_frames_header_single_file :
    combine_frames_header
        [{ exptime := 7, e_readn := 3, e_readn_all := [3], e_gain_all := [1] }] 5
      = .ok { exptime := 7, e_readn := 3, e_readn_all := [3], e_gain_all := [1] } ∧
    ({ exptime := 7, e_readn := 3, e_readn_all := [3], e_gain_all := [1] }
      : FitsHeader).npixfix = none :=
  ⟨rfl, rfl⟩

/-- Witness for the amended C7 at a concrete two-file input: the header
records a bad-pixel count of 0. -/
theorem combine_frames_header_post_witness :
    (combine_frames_header [⟨7, 3, [3], [1], none, none, none, none⟩,
        ⟨2, 4, [4], [1], none, none, none, none⟩] 9).map (fun h => h.npixfix)
      = .ok (some 0) := by
  obtain ⟨out, hout, he, hr, hn, hp⟩ :=
    combine_frames_header_post [⟨7, 3, [3], [1], none, none, none, none⟩,
      ⟨2, 4, [4], [1], none, none, none, none⟩] 9 (by decide)
  rw [hout]
  simp [Except.map, hp]

/-- C9 (amended): `combine_calibrate` raises a ValueError naming the
allowed-value set when a 2D bias is given with a scaling outside
exposure_time / number_of_files / mean / median / none, when a polynomial
bias is given with a scaling other than exposure_time (None and "none"
excepted: they skip the bias step without error), and when a norm is given
with a scaling other than divide / none. -/
theorem combine_calibrate_scaling_errors (orig image : List (List ℝ))
    (coeffs : List (List (List ℝ))) (nm : List (List ℝ)) (texp bexp : ℝ)
    (bs ns : String) (nfiles : ℕ) (norm : Option (List (List ℝ))) :
    (bs ∉ allowedBias2 →
      combine_calibrate_post orig texp (some (.dim2 image)) bexp (some bs) norm ns nfiles
        = .error (.valueErrorChoices allowedBias2 bs)) ∧
    (bs ∉ [scalingExpTime, scalingNone] →
      combine_calibrate_post orig texp (some (.dim3 coeffs)) bexp (some bs) norm ns nfiles
        = .error (.valueErrorChoices allowedBias3 bs)) ∧
    (ns ∉ allowedNorm →
      combine_calibrate_post orig texp none bexp none (some nm) ns nfiles
        = .error (.valueErrorChoices allowedNorm ns)) := by
  refine ⟨?_, ?_, ?_⟩
  · intro hbs
    simp only [allowedBias2, scalingExpTime, scalingNumFiles, scalingMean, scalingMedian,
      scalingNone, List.mem_cons, List.not_mem_nil, or_false, not_or] at hbs
    obtain ⟨h1, h2, h3, h4, h5⟩ := hbs
    have heff : effective_scaling bexp bs = bs := by
      unfold effective_scaling
      rw [if_neg (fun h => h1 h.2)]
    have hstep : bias_step orig texp (some (.dim2 image)) bexp (some bs) nfiles
        = .error (.valueErrorChoices allowedBias2 bs) := by
      simp only [bias_step, heff]
      rw [if_neg h5, if_neg h1, if_neg h2, if_neg h3, if_neg h4, if_neg h5]
    simp only [combine_calibrate_post, hstep]
  · intro hbs
    simp only [scalingExpTime, scalingNone, List.mem_cons, List.not_mem_nil, or_false,
      not_or] at hbs
    obtain ⟨h1, h5⟩ := hbs
    have hstep : bias_step orig texp (some (.dim3 coeffs)) bexp (some bs) nfiles
        = .error (.valueErrorChoices allowedBias3 bs) := by
      simp only [bias_step]
      rw [if_neg h5, if_neg h1]
    simp only [combine_calibrate_post, hstep]
  · intro hns
    simp only [allowedNorm, scalingDivide, scalingNone, List.mem_cons, List.not_mem_nil,
      or_false, not_or] at hns
    obtain ⟨h1, h2⟩ := hns
    have hstep : bias_step orig texp none bexp none nfiles = .ok orig := rfl
    simp only [combine_calibrate_post, hstep, norm_step]
    rw [if_neg h2, if_neg h1]

/-- C9 counterexample: a polynomial bias combined with bias_scaling "none"
raises nothing — the whole bias block is skipped (combine_frames.py line
505 requires `bias_scaling != "none"`), so the call returns the combined
image unchanged although "none" is not "exposure_time". -/
theorem combine_calibrate_poly_none_skips :
    combine_calibrate_post [[(1 : ℝ)]] 10 (some (.dim3 [[[1]], [[2]]])) 5
      (some scalingNone) none scalingNone 3 = .ok [[(1 : ℝ)]] := rfl

/-- Witness for the amended C9 at a concrete input: a 2D bias with the
unrecognized scaling "bogus" raises the ValueError naming the allowed
set. -/
theorem combine_calibrate_scaling_errors_witness :
    combine_calibrate_post [[(2 : ℝ)]] 4 (some (.dim2 [[1]])) 2 (some scalingBogus)
      none scalingNone 1 = .error (.valueErrorChoices allowedBias2 scalingBogus) :=
  (combine_calibrate_scaling_errors [[(2 : ℝ)]] [[1]] [] [] 4 2 scalingBogus scalingNone
    1 none).1 (by decide)

lemma foldl_min_const (t : List K) (a : K) (h : ∀ x ∈ t, x = a) : t.foldl min a = a := by
  induction t with
  | nil => rfl
  | cons b t ih =>
    rw [List.foldl_cons, h b (List.mem_cons_self b t), min_self]
    exact ih (fun x hx => h x (List.mem_cons_of_mem b hx))

lemma foldl_max_const (t : List K) (a : K) (h : ∀ x ∈ t, x = a) : t.foldl max a = a := by
  induction t with
  | nil => rfl
  | cons b t ih =>
    rw [List.foldl_cons, h b (List.mem_cons_self b t), max_self]
    exact ih (fun x hx => h x (List.mem_cons_of_mem b hx))

lemma listMin_eq_listMax_of_all_eq (l : List K)
    (h : ∀ x ∈ l, ∀ y ∈ l, x = y) : listMin l = listMax l := by
  cases l with
  | nil => rfl
  | cons a t =>
    have ht : ∀ x ∈ t, x = a := fun x hx =>
      h x (List.mem_cons_of_mem a hx) a (List.mem_cons_self a t)
    simp only [listMin, listMax]
    rw [foldl_min_const t a ht, foldl_max_const t a ht]

lemma matMin_eq_matMax_of_all_eq (m : List (List K))
    (h : ∀ x ∈ m.join, ∀ y ∈ m.join, x = y) : matMin m = matMax m :=
  listMin_eq_listMax_of_all_eq m.join h

lemma matScale_sub_self_zero (s : K) (M : List (List K)) :
    ∀ x ∈ (matScale s (matSub M M)).join, x = 0 := by
  intro x hx
  unfold matScale matSub at hx
  rw [List.zipWith_same] at hx
  simp only [List.mem_join, List.mem_map, List.zipWith_same] at hx
  obtain ⟨row, ⟨⟨r2, ⟨⟨r3, hr3, rfl⟩, rfl⟩⟩, hxrow⟩⟩ := hx
  simp only [List.mem_map] at hxrow
  obtain ⟨y, ⟨⟨u, hu, rfl⟩, rfl⟩⟩ := hxrow
  simp

/-- C8: when the difference image `0.5*(half1 − half2)` has all its values
equal, `combine_bias` does not fail: it returns normally with the reported
read-noise estimate defaulted to 1.0 and the reported bad-pixel count 0. -/
theorem combine_bias_degenerate {F : Type} (combineF : List F → List (List ℝ) × FitsHeader)
    (gaussEstimate : List (List ℝ) → ℕ → ℝ × ℝ × ℝ) (files : List F)
    (hne : files.length ≠ 0)
    (hdeg : ∀ x ∈ (biasDiff combineF files).join,
      ∀ y ∈ (biasDiff combineF files).join, x = y) :
    ∃ img out, combine_bias combineF gaussEstimate files = .ok (img, out) ∧
      out.bgnoise = 1 ∧ out.npixfix = 0 := by
  have hmm := matMin_eq_matMax_of_all_eq (biasDiff combineF files) hdeg
  refine ⟨biasSum combineF files,
    ⟨biasExptime combineF files, (biasSplit files).2.2, 0, 1⟩, ?_, rfl, rfl⟩
  unfold combine_bias
  rw [if_neg hne, if_neg (fun hco => hco hmm)]

/-- Witness for C8 at a concrete input: one file whose frame is the
constant image 2, so the difference image is identically zero; the
returned noise is 1 and the bad-pixel count 0. -/
theorem combine_bias_degenerate_witness :
    (combine_bias (fun _ : List ℕ => ([[(2 : ℝ), 2], [2, 2]],
        (⟨0, 0, [], [], none, none, none, none⟩ : FitsHeader)))
      (fun _ _ => (0, 0, 0)) [0]).toOption.map (fun r => (r.2.bgnoise, r.2.npixfix))
      = some (1, 0) := by
  have hz : ∀ x ∈ (biasDiff (fun _ : List ℕ => ([[(2 : ℝ), 2], [2, 2]],
      (⟨0, 0, [], [], none, none, none, none⟩ : FitsHeader))) [0]).join, x = 0 := by
    have hsplit : biasSplit ([0] : List ℕ) = ([0], [0], 2) := by
      unfold biasSplit
      rw [if_pos (by simp)]
    intro x hx
    unfold biasDiff at hx
    rw [hsplit] at hx
    exact matScale_sub_self_zero _ _ x hx
  obtain ⟨img, out, hok, hb, hp⟩ := combine_bias_degenerate
    (fun _ : List ℕ => ([[(2 : ℝ), 2], [2, 2]],
      (⟨0, 0, [], [], none, none, none, none⟩ : FitsHeader)))
    (fun _ _ => (0, 0, 0)) [0] (by decide)
    (fun x hx y hy => by rw [hz x hx, hz y hy])
  rw [hok]
  simp [Except.toOption, hb, hp]

/-- C10: `combine_bias` with exactly one file compares the frame with
itself: both halves are the same call, the difference image is
identically zero, the degenerate default applies (read noise 1.0, no bad
pixels), and the returned header reports nimages = 2 rather than 1. -/
theorem combine_bias_single_file {F : Type} (combineF : List F → List (List ℝ) × FitsHeader)
    (gaussEstimate : List (List ℝ) → ℕ → ℝ × ℝ × ℝ) (f : F) :
    ∃ img out, combine_bias combineF gaussEstimate [f] = .ok (img, out) ∧
      out.bgnoise = 1 ∧ out.npixfix = 0 ∧ out.nimages = 2 := by
  have hsplit : biasSplit ([f] : List F) = ([f], [f], 2) := by
    unfold biasSplit
    rw [if_pos (by simp)]
  have hz : ∀ x ∈ (biasDiff combineF [f]).join, x = 0 := by
    intro x hx
    unfold biasDiff at hx
    rw [hsplit] at hx
    exact matScale_sub_self_zero _ _ x hx
  have hmm := matMin_eq_matMax_of_all_eq (biasDiff combineF [f])
    (fun x hx y hy => by rw [hz x hx, hz y hy])
  refine ⟨biasSum combineF [f],
    ⟨biasExptime combineF [f], (biasSplit [f]).2.2, 0, 1⟩, ?_, rfl, rfl, ?_⟩
  · unfold combine_bias
    rw [if_neg (by simp), if_neg (fun hco => hco hmm)]
  · show (biasSplit ([f] : List F)).2.2 = 2
    rw [hsplit]
